import Mathlib

/-!
Verification of the packaging and delivery engine of the media-delivery bot.

The definitions below are shallow embeddings of the Python functions in
`src/bot/helpers/utils.py`, `src/bot/helpers/uploader.py` and
`src/bot/helpers/message.py`.  Sizes are natural numbers of bytes; the
module constant `MAX_SIZE` of the source is generalised to a `maxSize`
parameter because the specification quantifies over the maximum artifact
size (for the source's concrete float constant `1.9 * 1024**3`, the Python
comparison `current_size + file_size > MAX_SIZE` on integers coincides with
the Nat comparison against `2040109465`).
-/

namespace Packer

/-- A source file as seen by `os.walk`: its path (used as the archive
member name) and its size in bytes (`os.path.getsize`). -/
structure SrcFile where
  path : String
  size : Nat
deriving Repr, DecidableEq

/-- An archive produced by `add_to_zip`: the zip path and the ordered list
of files written into it. -/
structure Archive where
  name : String
  files : List SrcFile
deriving Repr, DecidableEq

/-- The zip path chosen by `add_to_zip`: `base.zip` for part 1,
`base.partN.zip` for part N ≥ 2. -/
def zipName (folderpath : String) (part_num : Nat) : String :=
  if part_num = 1 then folderpath ++ ".zip"
  else folderpath ++ ".part" ++ toString part_num ++ ".zip"

/-- Total uncompressed content size of a list of files. -/
def sizeSum (l : List SrcFile) : Nat :=
  (l.map SrcFile.size).sum

/-- The loop body of `split_zip_folder` over the walk order, threading the
state `(part_num, current_size, current_files, zip_paths)`.  Before adding
a file, if `current_size + file_size > maxSize` the current batch is sealed
(exactly as in the source: even when the batch is empty), `part_num` is
incremented and the triggering file starts the new batch. -/
def splitLoop (folderpath : String) (maxSize : Nat) :
    List SrcFile → Nat → Nat → List SrcFile → List Archive →
    List Archive × Nat × Nat × List SrcFile
  | [], part_num, current_size, current_files, zip_paths =>
      (zip_paths, part_num, current_size, current_files)
  | f :: rest, part_num, current_size, current_files, zip_paths =>
      if current_size + f.size > maxSize then
        splitLoop folderpath maxSize rest (part_num + 1) f.size [f]
          (zip_paths ++ [⟨zipName folderpath part_num, current_files⟩])
      else
        splitLoop folderpath maxSize rest part_num (current_size + f.size)
          (current_files ++ [f]) zip_paths

/-- Function `split_zip_folder`: run the loop over the files in walk order, then
seal any non-empty remaining batch as the final archive. -/
def split_zip_folder (folderpath : String) (maxSize : Nat)
    (files : List SrcFile) : List Archive :=
  let r := splitLoop folderpath maxSize files 1 0 [] []
  match r with
  | (zips, part_num, _, current_files) =>
      if current_files.isEmpty then zips
      else zips ++ [⟨zipName folderpath part_num, current_files⟩]

/-- A batch respects the size bound: its total size is at most `maxSize`,
or it is a single file that is itself larger than `maxSize`. -/
def batchOK (maxSize : Nat) (l : List SrcFile) : Prop :=
  sizeSum l ≤ maxSize ∨ ∃ f, l = [f] ∧ maxSize < f.size

lemma batchOK_nil (maxSize : Nat) : batchOK maxSize [] := by
  left; simp [sizeSum]

lemma batchOK_single (maxSize : Nat) (f : SrcFile) : batchOK maxSize [f] := by
  by_cases h : f.size ≤ maxSize
  · left; simpa [sizeSum] using h
  · right; exact ⟨f, rfl, by omega⟩

/-- Size invariant of the loop: if the current batch is OK and its recorded
size is its true size, and all sealed archives are OK, then all archives in
the final output are OK (the current batch included). -/
lemma splitLoop_sizes (folderpath : String) (maxSize : Nat) :
    ∀ (files : List SrcFile) (pn cs : Nat) (cur : List SrcFile)
      (zips : List Archive),
      cs = sizeSum cur → batchOK maxSize cur →
      (∀ a ∈ zips, batchOK maxSize a.files) →
      (∀ a ∈ (splitLoop folderpath maxSize files pn cs cur zips).1,
          batchOK maxSize a.files) ∧
      batchOK maxSize (splitLoop folderpath maxSize files pn cs cur zips).2.2.2 ∧
      (splitLoop folderpath maxSize files pn cs cur zips).2.2.1 =
        sizeSum (splitLoop folderpath maxSize files pn cs cur zips).2.2.2 := by
  intro files
  induction files with
  | nil =>
      intro pn cs cur zips hsz hcur hzips
      simpa [splitLoop] using ⟨hzips, hcur, hsz⟩
  | cons f rest ih =>
      intro pn cs cur zips hsz hcur hzips
      by_cases h : cs + f.size > maxSize
      · have hz : ∀ a ∈ zips ++ [⟨zipName folderpath pn, cur⟩],
            batchOK maxSize a.files := by
          intro a ha
          rcases List.mem_append.mp ha with ha | ha
          · exact hzips a ha
          · simp at ha; subst ha; exact hcur
        have := ih (pn + 1) f.size [f] (zips ++ [⟨zipName folderpath pn, cur⟩])
          (by simp [sizeSum]) (batchOK_single maxSize f) hz
        simpa [splitLoop, h] using this
      · have hok : batchOK maxSize (cur ++ [f]) := by
          left
          have : sizeSum (cur ++ [f]) = cs + f.size := by
            simp [sizeSum, hsz]
          omega
        have := ih pn (cs + f.size) (cur ++ [f]) zips
          (by simp [sizeSum, hsz]) hok hzips
        simpa [splitLoop, h] using this

/-- C1 core: every archive produced by `split_zip_folder` is size-bounded
or a lone oversized file. -/
theorem split_zip_folder_sizes (folderpath : String) (maxSize : Nat)
    (files : List SrcFile) :
    ∀ a ∈ split_zip_folder folderpath maxSize files,
      sizeSum a.files ≤ maxSize ∨ ∃ f, a.files = [f] ∧ maxSize < f.size := by
  intro a ha
  have h := splitLoop_sizes folderpath maxSize files 1 0 [] []
    (by simp [sizeSum]) (batchOK_nil maxSize) (by intro a h; simp at h)
  unfold split_zip_folder at ha
  rcases hr : splitLoop folderpath maxSize files 1 0 [] [] with ⟨zips, pn, cs, cur⟩
  rw [hr] at h ha
  by_cases hcur : cur.isEmpty
  · simp [hcur] at ha
    exact h.1 a ha
  · simp [hcur] at ha
    rcases ha with ha | ha
    · exact h.1 a ha
    · subst ha
      exact h.2.1

/-- Content invariant of the loop: the files of all sealed archives,
followed by the current batch, followed by the unprocessed files, is an
invariant of the loop. -/
lemma splitLoop_contents (folderpath : String) (maxSize : Nat) :
    ∀ (files : List SrcFile) (pn cs : Nat) (cur : List SrcFile)
      (zips : List Archive),
      ((splitLoop folderpath maxSize files pn cs cur zips).1.flatMap
          Archive.files) ++
        (splitLoop folderpath maxSize files pn cs cur zips).2.2.2 =
      (zips.flatMap Archive.files) ++ cur ++ files := by
  intro files
  induction files with
  | nil =>
      intro pn cs cur zips
      simp [splitLoop]
  | cons f rest ih =>
      intro pn cs cur zips
      by_cases h : cs + f.size > maxSize
      · simp only [splitLoop]
        rw [if_pos h]
        rw [ih (pn + 1) f.size [f]
          (zips ++ [({ name := zipName folderpath pn, files := cur } : Archive)])]
        simp [List.flatMap_append]
      · simp only [splitLoop]
        rw [if_neg h]
        rw [ih pn (cs + f.size) (cur ++ [f]) zips]
        simp

/-- C2: unzipping all produced archives, in order, yields exactly the
original walk-order file list — every file exactly once, no duplicate, no
omission. -/
theorem split_zip_folder_complete (folderpath : String) (maxSize : Nat)
    (files : List SrcFile) :
    (split_zip_folder folderpath maxSize files).flatMap Archive.files =
      files := by
  have h := splitLoop_contents folderpath maxSize files 1 0 [] []
  unfold split_zip_folder
  rcases hr : splitLoop folderpath maxSize files 1 0 [] [] with ⟨zips, pn, cs, cur⟩
  rw [hr] at h
  simp at h
  by_cases hcur : cur.isEmpty
  · have : cur = [] := List.isEmpty_iff.mp hcur
    subst this
    simpa using h
  · simp [hcur, List.flatMap_append]
    exact h

/-- Nonemptiness invariant of the loop: once the current batch is
non-empty, it stays non-empty (a seal immediately starts the new batch
with the triggering file), so every later sealed archive is non-empty. -/
lemma splitLoop_nonempty (folderpath : String) (maxSize : Nat) :
    ∀ (files : List SrcFile) (pn cs : Nat) (cur : List SrcFile)
      (zips : List Archive),
      cur ≠ [] → (∀ a ∈ zips, a.files ≠ []) →
      (∀ a ∈ (splitLoop folderpath maxSize files pn cs cur zips).1,
          a.files ≠ []) ∧
      (splitLoop folderpath maxSize files pn cs cur zips).2.2.2 ≠ [] := by
  intro files
  induction files with
  | nil =>
      intro pn cs cur zips hcur hzips
      simpa [splitLoop] using ⟨hzips, hcur⟩
  | cons f rest ih =>
      intro pn cs cur zips hcur hzips
      by_cases h : cs + f.size > maxSize
      · have hz : ∀ a ∈ zips ++ [⟨zipName folderpath pn, cur⟩],
            a.files ≠ [] := by
          intro a ha
          rcases List.mem_append.mp ha with ha | ha
          · exact hzips a ha
          · simp at ha; subst ha; exact hcur
        have := ih (pn + 1) f.size [f]
          (zips ++ [⟨zipName folderpath pn, cur⟩]) (by simp) hz
        simpa [splitLoop, h] using this
      · have := ih pn (cs + f.size) (cur ++ [f]) zips (by simp) hzips
        simpa [splitLoop, h] using this

/-- C3 amended: provided the first file in traversal order does not exceed
`maxSize`, every produced archive is non-empty (and an empty tree produces
no archives at all). -/
theorem split_zip_folder_no_empty_archive (folderpath : String)
    (maxSize : Nat) (files : List SrcFile)
    (hfirst : ∀ f, files.head? = some f → f.size ≤ maxSize) :
    ∀ a ∈ split_zip_folder folderpath maxSize files, a.files ≠ [] := by
  intro a ha
  match files with
  | [] =>
      simp [split_zip_folder, splitLoop] at ha
  | f :: rest =>
      have hf : f.size ≤ maxSize := hfirst f rfl
      have hns : ¬ (0 + f.size > maxSize) := by omega
      have h := splitLoop_nonempty folderpath maxSize rest 1 (0 + f.size)
        ([] ++ [f]) [] (by simp) (by intro a h; simp at h)
      unfold split_zip_folder at ha
      simp only [splitLoop] at ha
      rw [if_neg hns] at ha
      rcases hr : splitLoop folderpath maxSize rest 1 (0 + f.size)
          ([] ++ [f]) [] with ⟨zips, pn, cs, cur⟩
      rw [hr] at h ha
      have hcur : ¬ cur.isEmpty := by
        simpa [List.isEmpty_iff] using h.2
      simp [hcur] at ha
      rcases ha with ha | ha
      · exact h.1 a ha
      · subst ha; exact h.2

/-- Witness for the split-size invariant at a concrete tree. -/
theorem split_zip_folder_sizes_witness :
    sizeSum ({ name := "d.zip", files := [⟨"a", 3⟩] } : Archive).files ≤ 5 ∨
      ∃ f, ({ name := "d.zip", files := [⟨"a", 3⟩] } : Archive).files = [f] ∧
        5 < f.size :=
  split_zip_folder_sizes "d" 5 [⟨"a", 3⟩]
    ({ name := "d.zip", files := [⟨"a", 3⟩] } : Archive) (by decide)

/-- C3 counterexample: a tree whose single (hence first) file is larger
than the maximum produces an empty first archive, although the source tree
is not empty — `split_zip_folder "d" 5 [file of size 6]` seals an empty
`d.zip` before placing the oversized file into `d.part2.zip`. -/
theorem split_zip_folder_empty_archive_cex :
    ¬ (∀ a ∈ split_zip_folder "d" 5 [⟨"a", 6⟩], a.files ≠ []) := by
  decide

/-- Witness for the amended no-empty-archive property at a concrete tree
whose first file fits the bound. -/
theorem split_zip_folder_no_empty_archive_witness :
    ({ name := "d.zip", files := [⟨"a", 3⟩] } : Archive).files ≠ [] :=
  split_zip_folder_no_empty_archive "d" 5 [⟨"a", 3⟩]
    (by intro f hf; simp at hf; subst hf; decide)
    ({ name := "d.zip", files := [⟨"a", 3⟩] } : Archive) (by decide)

end Packer

namespace Runner

/-!
Model of `run_concurrent_tasks` (utils.py).  The function wraps every task
in `run_task`, which acquires an `asyncio.Semaphore(Config.MAX_WORKERS)`,
awaits the task, and returns its result; `asyncio.gather` collects the
wrapped results positionally.  The cooperative scheduler is modelled as a
small-step machine: tasks are identified by their submission index, a task
`i` has outcome `tasks[i]`; the semaphore's FIFO waiter queue admits the
lowest queued index whenever a permit is free, and an external schedule
chooses which running task completes next.
-/

/-- A machine state of one `run_concurrent_tasks` invocation.  `queued`
are the submission indices still waiting on the semaphore (FIFO),
`running` the indices currently holding a permit, `done` the completed
`(index, outcome)` pairs in completion order, `permits` the free semaphore
permits, and `started` the indices in the order they entered execution. -/
structure RState (τ : Type) where
  queued : List Nat
  running : List Nat
  done : List (Nat × τ)
  permits : Nat
  started : List Nat
deriving Repr, DecidableEq

/-- The semaphore's admission loop: while a permit is free and a waiter is
queued, the first waiter in line acquires a permit and starts running. -/
def admitAll : List Nat → Nat → List Nat → List Nat →
    List Nat × Nat × List Nat × List Nat
  | i :: rest, p + 1, running, started =>
      admitAll rest p (running ++ [i]) (started ++ [i])
  | queued, p, running, started => (queued, p, running, started)

/-- Admit as many queued tasks as free permits allow. -/
def saturate (s : RState τ) : RState τ :=
  match admitAll s.queued s.permits s.running s.started with
  | (q, p, r, st) =>
      { queued := q, permits := p, running := r, started := st,
        done := s.done }

/-- A running task completes: `result = await task` is recorded for the
task's submission index and the semaphore permit is released (end of the
`async with semaphore` block in `run_task`). -/
def completeTask (tasks : List τ) (i : Nat) (s : RState τ) : RState τ :=
  if i ∈ s.running then
    match tasks[i]? with
    | some v =>
        { s with running := s.running.erase i,
                 done := s.done ++ [(i, v)],
                 permits := s.permits + 1 }
    | none => s
  else s

/-- Initial state: all tasks queued in submission order, the semaphore
holding `limit = Config.MAX_WORKERS` permits. -/
def initState (τ : Type) (n limit : Nat) : RState τ :=
  { queued := List.range n, running := [], done := [],
    permits := limit, started := [] }

/-- Run the machine under a completion schedule: before each completion
the scheduler admits every task a free permit allows, then the scheduled
running task finishes. -/
def exec (tasks : List τ) (limit : Nat) (sched : List Nat) : RState τ :=
  sched.foldl (fun s i => completeTask tasks i (saturate s))
    (initState τ tasks.length limit)

/-- All states the machine passes through, including the intermediate
post-admission states. -/
def execTraceAux (tasks : List τ) : List Nat → RState τ → List (RState τ)
  | [], _ => []
  | i :: rest, s =>
      let s1 := saturate s
      let s2 := completeTask tasks i s1
      s1 :: s2 :: execTraceAux tasks rest s2

/-- The full state trace of a run. -/
def execTrace (tasks : List τ) (limit : Nat) (sched : List Nat) :
    List (RState τ) :=
  initState τ tasks.length limit ::
    execTraceAux tasks sched (initState τ tasks.length limit)

/-- The result `gather` stores for submission index `i`: the outcome
recorded at `i`'s completion. -/
def lookupOutcome (done : List (Nat × τ)) (i : Nat) : Option τ :=
  (done.find? (fun p => p.1 == i)).map Prod.snd

/-- The positional result list `asyncio.gather` hands back: one slot per
submission index, in submission order. -/
def resultsList (n : Nat) (done : List (Nat × τ)) : List τ :=
  (List.range n).filterMap (lookupOutcome done)

/-- The value `run_concurrent_tasks` returns once the schedule has driven
every task to completion. -/
def run_concurrent_tasks (tasks : List τ) (limit : Nat)
    (sched : List Nat) : List τ :=
  resultsList tasks.length (exec tasks limit sched).done

/-- The machine invariant: permits and running tasks partition the
semaphore capacity; the waiting queue is the untouched suffix of the
submission order while `started` is its prefix; every started task is
either running or done, exactly once; every completed outcome is the
task's own outcome. -/
def Inv (tasks : List τ) (limit : Nat) (s : RState τ) : Prop :=
  (s.permits + s.running.length = limit) ∧
  (∃ k, k ≤ tasks.length ∧ s.queued = List.range' k (tasks.length - k) ∧
    s.started = List.range k) ∧
  (s.running ++ s.done.map Prod.fst).Perm s.started ∧
  (∀ p ∈ s.done, tasks[p.1]? = some p.2)

lemma inv_initState (tasks : List τ) (limit : Nat) :
    Inv tasks limit (initState τ tasks.length limit) := by
  refine ⟨by simp [initState], ⟨0, by simp [initState, List.range_eq_range']⟩,
    by simp [initState], by simp [initState]⟩

lemma admitAll_spec (n : Nat) :
    ∀ (queued : List Nat) (p : Nat) (running started : List Nat)
      (d : List Nat),
      (∃ k, k ≤ n ∧ queued = List.range' k (n - k) ∧
        started = List.range k) →
      (running ++ d).Perm started →
      (admitAll queued p running started).2.1 +
          (admitAll queued p running started).2.2.1.length =
        p + running.length ∧
      (∃ k, k ≤ n ∧ (admitAll queued p running started).1 =
          List.range' k (n - k) ∧
        (admitAll queued p running started).2.2.2 = List.range k) ∧
      ((admitAll queued p running started).2.2.1 ++ d).Perm
        (admitAll queued p running started).2.2.2 := by
  intro queued
  induction queued with
  | nil =>
      intro p running started d hk hperm
      exact ⟨by simp [admitAll], hk, by simpa [admitAll] using hperm⟩
  | cons i rest ih =>
      intro p running started d hk hperm
      match p with
      | 0 =>
          exact ⟨by simp [admitAll], hk, by simpa [admitAll] using hperm⟩
      | p + 1 =>
          obtain ⟨k, hkn, hq, hst⟩ := hk
          have hlt : k < n := by
            by_contra hge
            have hz : n - k = 0 := by omega
            simp [hz] at hq
          have hmk : n - k = (n - (k + 1)) + 1 := by omega
          rw [hmk, List.range'_succ] at hq
          have hi : i = k := ((List.cons.injEq _ _ _ _).mp hq).1
          have hrest : rest = List.range' (k + 1) (n - (k + 1)) :=
            ((List.cons.injEq _ _ _ _).mp hq).2
          have hperm2 : ((running ++ [i]) ++ d).Perm (started ++ [i]) := by
            have h2 : ((running ++ d) ++ [i]).Perm (started ++ [i]) :=
              List.Perm.append_right [i] hperm
            refine List.Perm.trans ?_ h2
            rw [List.append_assoc, List.append_assoc]
            exact List.Perm.append_left running
              (by simpa using (List.perm_append_singleton i d).symm)
          have hk2 : ∃ k2, k2 ≤ n ∧
              rest = List.range' k2 (n - k2) ∧
              started ++ [i] = List.range k2 := by
            refine ⟨k + 1, by omega, hrest, ?_⟩
            rw [hst, hi, ← List.range_succ]
          have hrec := ih p (running ++ [i]) (started ++ [i]) d hk2 hperm2
          simp only [admitAll]
          refine ⟨?_, hrec.2.1, hrec.2.2⟩
          rw [hrec.1]
          simp only [List.length_append, List.length_cons, List.length_nil]
          omega


lemma inv_saturate (tasks : List τ) (limit : Nat) (s : RState τ)
    (h : Inv tasks limit s) : Inv tasks limit (saturate s) := by
  obtain ⟨h1, h2, h3, h4⟩ := h
  have hs := admitAll_spec tasks.length s.queued s.permits s.running
    s.started (s.done.map Prod.fst) h2 h3
  rcases ha : admitAll s.queued s.permits s.running s.started
    with ⟨q, p, r, st⟩
  rw [ha] at hs
  have hsat : saturate s =
      { queued := q, running := r, done := s.done, permits := p,
        started := st } := by
    simp [saturate, ha]
  rw [hsat]
  refine ⟨?_, hs.2.1, hs.2.2, h4⟩
  have := hs.1
  simp only at this ⊢
  omega

lemma inv_completeTask (tasks : List τ) (limit i : Nat) (s : RState τ)
    (h : Inv tasks limit s) : Inv tasks limit (completeTask tasks i s) := by
  obtain ⟨h1, h2, h3, h4⟩ := h
  unfold completeTask
  by_cases hm : i ∈ s.running
  · rw [if_pos hm]
    cases hv : tasks[i]? with
    | none => exact ⟨h1, h2, h3, h4⟩
    | some v =>
        refine ⟨?_, h2, ?_, ?_⟩
        · have := List.length_erase_of_mem hm
          simp only [this]
          have hpos : 0 < s.running.length := List.length_pos.mpr
            (List.ne_nil_of_mem hm)
          omega
        · have hc : s.running.Perm (i :: s.running.erase i) :=
            List.perm_cons_erase hm
          have hstep : (s.running ++ s.done.map Prod.fst).Perm
              (i :: (s.running.erase i ++ s.done.map Prod.fst)) := by
            have := List.Perm.append_right (s.done.map Prod.fst) hc
            simpa using this
          have hgoal : ((s.running.erase i ++
              (s.done.map Prod.fst ++ [i]))).Perm
              (i :: (s.running.erase i ++ s.done.map Prod.fst)) := by
            have : (s.running.erase i ++ s.done.map Prod.fst) ++ [i] =
                s.running.erase i ++ (s.done.map Prod.fst ++ [i]) := by
              simp
            rw [← this]
            exact List.perm_append_singleton i _
          simp only [List.map_append, List.map_cons, List.map_nil]
          exact hgoal.trans (hstep.symm.trans h3)
        · intro p hp
          rcases List.mem_append.mp hp with hp | hp
          · exact h4 p hp
          · simp at hp
            subst hp
            exact hv
  · rw [if_neg hm]
    exact ⟨h1, h2, h3, h4⟩

lemma inv_foldl (tasks : List τ) (limit : Nat) :
    ∀ (sched : List Nat) (s0 : RState τ), Inv tasks limit s0 →
      Inv tasks limit
        (sched.foldl (fun s i => completeTask tasks i (saturate s)) s0) := by
  intro sched
  induction sched with
  | nil => intro s0 h0; simpa using h0
  | cons i rest ih =>
      intro s0 h0
      simp only [List.foldl_cons]
      exact ih _ (inv_completeTask tasks limit i _
        (inv_saturate tasks limit _ h0))

lemma inv_exec (tasks : List τ) (limit : Nat) (sched : List Nat) :
    Inv tasks limit (exec tasks limit sched) :=
  inv_foldl tasks limit sched _ (inv_initState tasks limit)

lemma inv_execTraceAux (tasks : List τ) (limit : Nat) :
    ∀ (sched : List Nat) (s0 : RState τ), Inv tasks limit s0 →
      ∀ x ∈ execTraceAux tasks sched s0, Inv tasks limit x := by
  intro sched
  induction sched with
  | nil => intro s0 h0 x hx; simp [execTraceAux] at hx
  | cons i rest ih =>
      intro s0 h0 x hx
      simp only [execTraceAux, List.mem_cons] at hx
      rcases hx with hx | hx | hx
      · subst hx; exact inv_saturate tasks limit _ h0
      · subst hx
        exact inv_completeTask tasks limit i _ (inv_saturate tasks limit _ h0)
      · exact ih _ (inv_completeTask tasks limit i _
          (inv_saturate tasks limit _ h0)) x hx

lemma inv_execTrace (tasks : List τ) (limit : Nat) (sched : List Nat) :
    ∀ s ∈ execTrace tasks limit sched, Inv tasks limit s := by
  intro s hs
  rcases List.mem_cons.mp hs with hs | hs
  · subst hs; exact inv_initState tasks limit
  · exact inv_execTraceAux tasks limit sched _ (inv_initState tasks limit) s hs

/-- When every task has completed, the final state's record at index `i`
is exactly the outcome of task `i`. -/
lemma exec_lookup (tasks : List τ) (limit : Nat) (sched : List Nat)
    (hdone : (exec tasks limit sched).done.length = tasks.length) :
    ∀ i, i < tasks.length →
      lookupOutcome (exec tasks limit sched).done i = tasks[i]? := by
  obtain ⟨h1, ⟨k, hk, hq, hst⟩, h3, h4⟩ := inv_exec tasks limit sched
  intro i hi
  set s := exec tasks limit sched with hsdef
  have hkeys : (s.done.map Prod.fst).length = tasks.length := by
    simpa using hdone
  have hlen := h3.length_eq
  rw [hst] at hlen
  simp only [List.length_append, hkeys, List.length_range] at hlen
  have hkn : k = tasks.length := by omega
  have hrun : s.running = [] := by
    have : s.running.length = 0 := by omega
    exact List.length_eq_zero.mp this
  rw [hrun, hst, hkn] at h3
  simp only [List.nil_append] at h3
  have hmem : i ∈ s.done.map Prod.fst := by
    have : i ∈ List.range tasks.length := List.mem_range.mpr hi
    exact h3.mem_iff.mpr this
  obtain ⟨p0, hp0, hp0i⟩ := List.mem_map.mp hmem
  have hfind : (s.done.find? (fun p => p.1 == i)).isSome := by
    rw [List.find?_isSome]
    exact ⟨p0, hp0, by simp [hp0i]⟩
  obtain ⟨p1, hp1⟩ := Option.isSome_iff_exists.mp hfind
  have hp1i : p1.1 = i := by
    have := List.find?_some hp1
    simpa using this
  have hp1mem : p1 ∈ s.done := List.mem_of_find?_eq_some hp1
  have hval := h4 p1 hp1mem
  rw [hp1i] at hval
  simp [lookupOutcome, hp1, hval]

lemma range_filterMap_getElem (l : List τ) :
    (List.range l.length).filterMap (fun i => l[i]?) = l := by
  induction l with
  | nil => simp
  | cons x xs ih =>
      rw [List.length_cons, List.range_succ_eq_map]
      rw [List.filterMap_cons]
      simp only [List.getElem?_cons_zero]
      rw [List.filterMap_map]
      have : ((fun i => (x :: xs)[i]?) ∘ Nat.succ) = fun i => xs[i]? := by
        funext i
        simp
      rw [this, ih]

/-- When every task has completed, the positional result list equals the
task outcome list: slot `i` holds task `i`'s outcome. -/
lemma resultsList_exec (tasks : List τ) (limit : Nat) (sched : List Nat)
    (hdone : (exec tasks limit sched).done.length = tasks.length) :
    resultsList tasks.length (exec tasks limit sched).done = tasks := by
  unfold resultsList
  have hcongr : (List.range tasks.length).filterMap
      (lookupOutcome (exec tasks limit sched).done) =
      (List.range tasks.length).filterMap (fun i => tasks[i]?) := by
    apply List.filterMap_congr
    intro i hi
    exact exec_lookup tasks limit sched hdone i (List.mem_range.mp hi)
  rw [hcongr, range_filterMap_getElem]

/-- C4: whenever the schedule has driven every task to completion, the
result list `run_concurrent_tasks` returns is indexed identically to the
submission order — slot `i` holds task `i`'s outcome — regardless of the
completion order `sched`. -/
theorem run_concurrent_tasks_order {τ : Type} (tasks : List τ)
    (limit : Nat) (sched : List Nat)
    (hdone : (exec tasks limit sched).done.length = tasks.length) :
    run_concurrent_tasks tasks limit sched = tasks :=
  resultsList_exec tasks limit sched hdone

/-- Witness for order preservation: three tasks, concurrency 2, completion
order 1, 0, 2. -/
theorem run_concurrent_tasks_order_witness :
    (exec [10, 20, 30] 2 [1, 0, 2]).done.length = 3 ∧
      run_concurrent_tasks [10, 20, 30] 2 [1, 0, 2] = [10, 20, 30] :=
  ⟨by decide, run_concurrent_tasks_order [10, 20, 30] 2 [1, 0, 2] (by decide)⟩

/-- C6: with any concurrency limit ≥ 1, at every instant of a run the
number of running tasks is at most the limit, and tasks are admitted into
execution exactly in submission order (the `started` log is always the
prefix `0, 1, …` of the submission indices). -/
theorem run_concurrent_tasks_bound {τ : Type} (tasks : List τ)
    (limit : Nat) (sched : List Nat) (_hlim : 1 ≤ limit) :
    ∀ s ∈ execTrace tasks limit sched,
      s.running.length ≤ limit ∧
        s.started = List.range s.started.length := by
  intro s hs
  obtain ⟨h1, ⟨k, hk, hq, hst⟩, h3, h4⟩ := inv_execTrace tasks limit sched s hs
  refine ⟨by omega, ?_⟩
  rw [hst, List.length_range]

/-- Witness for the concurrency bound at a concrete run state. -/
theorem run_concurrent_tasks_bound_witness :
    (initState Nat 2 1).running.length ≤ 1 ∧
      (initState Nat 2 1).started =
        List.range (initState Nat 2 1).started.length :=
  run_concurrent_tasks_bound [10, 20] 1 [0, 1] (by decide)
    (initState Nat 2 1) (by decide)

/-- The first exception among completed tasks, in completion order — the
exception `asyncio.gather` (called without `return_exceptions`) re-raises
to the caller of `run_concurrent_tasks`. -/
def firstRaised {ε α : Type} (done : List (Nat × Except ε α)) : Option ε :=
  done.findSome? (fun p =>
    match p.2 with
    | Except.error e => some e
    | Except.ok _ => none)

/-- What the caller of `run_concurrent_tasks` observes, modelling a task's
behaviour as `Except`: `Except.ok v` for a task returning `v` and
`Except.error e` for a task raising `e`.  `await asyncio.gather(...)`
re-raises the first raised exception; only if no task raised and all tasks
completed does it return the positional value list. -/
def gatherOutcome {ε α : Type} (tasks : List (Except ε α)) (limit : Nat)
    (sched : List Nat) : Option (Except ε (List α)) :=
  match firstRaised (exec tasks limit sched).done with
  | some e => some (Except.error e)
  | none =>
      if (exec tasks limit sched).done.length = tasks.length then
        some (Except.ok
          ((resultsList tasks.length
            (exec tasks limit sched).done).filterMap Except.toOption))
      else none

/-- C5 amended: the runner does not itself convert raised errors into
result values.  When every task returns (failures being returned as
values, the leaf convention), the caller receives one result per task in
submission order; but when some task raises, the exception propagates out
of `asyncio.gather` past the runner boundary. -/
theorem run_concurrent_tasks_error_policy {ε α : Type}
    (tasks : List (Except ε α)) (limit : Nat) (sched : List Nat)
    (hdone : (exec tasks limit sched).done.length = tasks.length) :
    ((∀ t ∈ tasks, ∃ v, t = Except.ok v) →
        gatherOutcome tasks limit sched =
          some (Except.ok (tasks.filterMap Except.toOption))) ∧
    (∀ (i : Nat) (e : ε), tasks[i]? = some (Except.error e) →
        ∃ e2, gatherOutcome tasks limit sched =
          some (Except.error e2)) := by
  constructor
  · intro hok
    have hnone : firstRaised (exec tasks limit sched).done = none := by
      rw [firstRaised, List.findSome?_eq_none_iff]
      intro p hp
      have hval := (inv_exec tasks limit sched).2.2.2 p hp
      have hmem : p.2 ∈ tasks := List.getElem?_mem hval
      obtain ⟨v, hv⟩ := hok p.2 hmem
      rw [hv]
    have hres := resultsList_exec tasks limit sched hdone
    simp only [gatherOutcome, hnone, hdone, if_true, hres]
  · intro i e he
    have hi : i < tasks.length := by
      by_contra hge
      rw [List.getElem?_eq_none (by omega)] at he
      cases he
    have hlk := exec_lookup tasks limit sched hdone i hi
    rw [he] at hlk
    unfold lookupOutcome at hlk
    obtain ⟨p1, hp1, hp1v⟩ := Option.map_eq_some'.mp hlk
    have hp1mem := List.mem_of_find?_eq_some hp1
    cases hfr : firstRaised (exec tasks limit sched).done with
    | some e2 => exact ⟨e2, by simp [gatherOutcome, hfr]⟩
    | none =>
        exfalso
        rw [firstRaised, List.findSome?_eq_none_iff] at hfr
        have hcontra := hfr p1 hp1mem
        rw [hp1v] at hcontra
        simp at hcontra

/-- Witness: a single returning task yields a one-slot result list. -/
theorem run_concurrent_tasks_error_policy_witness :
    gatherOutcome [(Except.ok 7 : Except String Nat)] 1 [0] =
      some (Except.ok ([(Except.ok 7 : Except String Nat)].filterMap
        Except.toOption)) :=
  (run_concurrent_tasks_error_policy
      [(Except.ok 7 : Except String Nat)] 1 [0] (by decide)).1
    (by
      intro t ht
      simp at ht
      subst ht
      exact ⟨7, rfl⟩)

/-- C5 counterexample: a raising task's error is NOT converted into a
failure result — the runner's own observable outcome is the raised
exception, and no per-task result list is returned at all. -/
theorem run_concurrent_tasks_raise_cex :
    gatherOutcome [(Except.error "boom" : Except String Nat)] 1 [0] =
        some (Except.error "boom") ∧
      ¬ ∃ results : List Nat,
          gatherOutcome [(Except.error "boom" : Except String Nat)] 1 [0] =
            some (Except.ok results) := by
  refine ⟨rfl, ?_⟩
  rintro ⟨r, hr⟩
  rw [show gatherOutcome [(Except.error "boom" : Except String Nat)] 1 [0] =
      some (Except.error "boom") from rfl] at hr
  simp at hr

end Runner

namespace Fetcher

/-!
Model of `download_file(url, path, retries=3, timeout=30)` (utils.py).
The endpoint's behaviour is abstracted as a function from the 1-based
attempt number to what that attempt observes.
-/

/-- What one attempt observes: a 200 response, a non-200 status, a
network-level error (`aiohttp.ClientError` / `asyncio.TimeoutError`), or
any other unexpected exception. -/
inductive AttemptOutcome (ε : Type) where
  | success
  | badStatus (code : Nat)
  | netError (e : ε)
  | otherError (e : ε)
deriving Repr, DecidableEq

/-- The value `download_file` returns: `ok` for Python's `None` (also
produced by falling off the loop), and the three error-string shapes. -/
inductive FetchResult (ε : Type) where
  | ok
  | httpStatus (code : Nat)
  | exhausted (retries : Nat) (last : ε)
  | unexpected (e : ε)
deriving Repr, DecidableEq

/-- The loop `for attempt in range(1, retries + 1)` of `download_file`,
run over the remaining attempt numbers.  The result is paired with the
list of back-off sleeps performed (`await asyncio.sleep(2 ** attempt)`)
and the number of attempts made.  A 200 streams the body and returns
`None`; a non-200 returns immediately; a net-level error returns the
exhaustion message on the last attempt and otherwise sleeps and retries;
any other exception returns immediately. -/
def dlLoop {ε : Type} (endpoint : Nat → AttemptOutcome ε) (retries : Nat) :
    List Nat → List Nat → Nat → FetchResult ε × List Nat × Nat
  | [], sleeps, attempts => (FetchResult.ok, sleeps, attempts)
  | a :: rest, sleeps, attempts =>
      match endpoint a with
      | AttemptOutcome.success => (FetchResult.ok, sleeps, attempts + 1)
      | AttemptOutcome.badStatus c =>
          (FetchResult.httpStatus c, sleeps, attempts + 1)
      | AttemptOutcome.otherError e =>
          (FetchResult.unexpected e, sleeps, attempts + 1)
      | AttemptOutcome.netError e =>
          if a = retries then
            (FetchResult.exhausted retries e, sleeps, attempts + 1)
          else
            dlLoop endpoint retries rest (sleeps ++ [2 ^ a]) (attempts + 1)

/-- Function `download_file`: run the attempt loop over `range(1, retries + 1)`. -/
def download_file {ε : Type} (endpoint : Nat → AttemptOutcome ε)
    (retries : Nat) : FetchResult ε × List Nat × Nat :=
  dlLoop endpoint retries (List.range' 1 retries) [] 0

lemma dlLoop_cons_net {ε : Type} (err : Nat → ε) (retries a : Nat)
    (rest sleeps : List Nat) (att : Nat) :
    dlLoop (fun x => AttemptOutcome.netError (err x)) retries
        (a :: rest) sleeps att =
      if a = retries then
        (FetchResult.exhausted retries (err a), sleeps, att + 1)
      else
        dlLoop (fun x => AttemptOutcome.netError (err x)) retries rest
          (sleeps ++ [2 ^ a]) (att + 1) := rfl

lemma dlLoop_netError {ε : Type} (err : Nat → ε) (retries : Nat) :
    ∀ (m start : Nat) (sleeps : List Nat) (att : Nat),
      1 ≤ m → start + m = retries + 1 →
      dlLoop (fun a => AttemptOutcome.netError (err a)) retries
          (List.range' start m) sleeps att =
        (FetchResult.exhausted retries (err retries),
          sleeps ++ (List.range' start (m - 1)).map (fun a => 2 ^ a),
          att + m) := by
  intro m
  induction m with
  | zero => intro start sleeps att h1 h2; omega
  | succ m ih =>
      intro start sleeps att h1 h2
      match m with
      | 0 =>
          have hs : start = retries := by omega
          subst hs
          simp [List.range'_succ, dlLoop]
      | m2 + 1 =>
          have hne : start ≠ retries := by omega
          rw [List.range'_succ, dlLoop_cons_net, if_neg hne]
          rw [ih (start + 1) (sleeps ++ [2 ^ start]) (att + 1)
            (by omega) (by omega)]
          refine Prod.ext rfl (Prod.ext ?_ ?_)
          · simp [List.range'_succ]
          · simp only
            omega

/-- C7 amended: for every `retries ≥ 1`, an endpoint that hits a
network-level error on every attempt makes exactly `retries` attempts,
sleeps `2^1, 2^2, …, 2^(retries-1)` seconds between consecutive attempts,
and finally returns the exhaustion failure carrying the last attempt's
error; an endpoint answering a non-200 status on the first attempt fails
immediately with that status after a single attempt and no sleeps. -/
theorem download_file_policy {ε : Type} (err : Nat → ε) (retries : Nat)
    (hr : 1 ≤ retries) (endpoint2 : Nat → AttemptOutcome ε) (code : Nat)
    (hbad : endpoint2 1 = AttemptOutcome.badStatus code) :
    download_file (fun a => AttemptOutcome.netError (err a)) retries =
      (FetchResult.exhausted retries (err retries),
        (List.range' 1 (retries - 1)).map (fun a => 2 ^ a), retries) ∧
    download_file endpoint2 retries =
      (FetchResult.httpStatus code, [], 1) := by
  constructor
  · unfold download_file
    rw [dlLoop_netError err retries retries 1 [] 0 hr (by omega)]
    simp
  · unfold download_file
    have hm : retries = (retries - 1) + 1 := by omega
    rw [hm, List.range'_succ]
    simp [dlLoop, hbad]

/-- Witness: the spec's own scenario, `maxRetries = 3` against connection
resets on every attempt (3 attempts, sleeps 2 then 4, exhausted), and a
404 on the first attempt (1 attempt, no sleep). -/
theorem download_file_policy_witness :
    download_file (fun a => AttemptOutcome.netError (toString a)) 3 =
      (FetchResult.exhausted 3 (toString 3),
        (List.range' 1 2).map (fun a => 2 ^ a), 3) ∧
    download_file (fun _ => (AttemptOutcome.badStatus 404 :
        AttemptOutcome String)) 3 =
      (FetchResult.httpStatus 404, [], 1) :=
  download_file_policy (fun a => toString a) 3 (by decide)
    (fun _ => (AttemptOutcome.badStatus 404 : AttemptOutcome String))
    404 rfl

/-- C7 counterexample: with `retries = 0` the loop body never runs, so
`download_file` makes zero attempts and falls off the loop, returning
Python's implicit `None` — reported as success — although the endpoint
fails every attempt; the claim's universal quantification over `N` fails
at `N = 0`. -/
theorem download_file_zero_retries_cex :
    download_file (fun _ => AttemptOutcome.netError "reset") 0 =
      (FetchResult.ok, [], 0) := rfl

end Fetcher

namespace Uploader

/-!
Model of `track_upload` and `album_upload` (uploader.py).  Each external
awaited call (`send_message`, `edit_message`, `rclone_upload`,
`create_simple_zip`) either returns or raises; the model records which of
the function's cleanup statements (`os.remove`, `shutil.rmtree`) actually
ran.  In the source those statements follow the delivery branches with no
`try`/`finally` around them.
-/

/-- The behaviour of an awaited call: it returns a value or raises. -/
inductive CallResult (α : Type) where
  | returns (v : α)
  | raises (e : String)
deriving Repr, DecidableEq

/-- Environment of one `track_upload` call: `Config.UPLOAD_MODE`, the
behaviour of the `send_message` call of the taken branch, the behaviour of
`rclone_upload`, and whether `metadata` carries a thumbnail path. -/
structure TrackEnv where
  upload_mode : String
  send_behavior : CallResult Unit
  rclone_behavior : CallResult (Option String × Option String)
  has_thumbnail : Bool
deriving Repr, DecidableEq

/-- Which cleanup statements of `track_upload` executed:
`os.remove(metadata['filepath'])` and `os.remove(metadata['thumbnail'])`. -/
structure TrackCleanup where
  file_removed : Bool
  thumb_removed : Bool
deriving Repr, DecidableEq

/-- The delivery branch of `track_upload`: under `'Telegram'` one
`send_message` call; under `'Rclone'` an `rclone_upload` call followed by
a `send_message` call; under any other mode no call at all.  The branch
raises as soon as one of its calls raises. -/
def track_branch (env : TrackEnv) : Except String Unit :=
  if env.upload_mode = "Telegram" then
    match env.send_behavior with
    | CallResult.returns _ => Except.ok ()
    | CallResult.raises e => Except.error e
  else if env.upload_mode = "Rclone" then
    match env.rclone_behavior with
    | CallResult.raises e => Except.error e
    | CallResult.returns _ =>
        match env.send_behavior with
        | CallResult.returns _ => Except.ok ()
        | CallResult.raises e => Except.error e
  else Except.ok ()

/-- Function `track_upload`: run the delivery branch; only when it returns without
raising do the trailing cleanup statements run (file always, thumbnail if
present).  A raised exception propagates and skips both. -/
def track_upload (env : TrackEnv) : Except String Unit × TrackCleanup :=
  match track_branch env with
  | Except.error e => (Except.error e, ⟨false, false⟩)
  | Except.ok _ => (Except.ok (), ⟨true, env.has_thumbnail⟩)

/-- Environment of one `album_upload` call. -/
structure AlbumEnv where
  upload_mode : String
  album_zip : Bool
  zip_behavior : CallResult Unit
  send_behavior : CallResult Unit
  rclone_behavior : CallResult (Option String × Option String)
  track_envs : List TrackEnv
deriving Repr, DecidableEq

/-- Which cleanup statements of `album_upload` executed:
`os.remove(zip_path)`, `shutil.rmtree(metadata['folderpath'])`, and the
per-track cleanups of the non-zip branch. -/
structure AlbumCleanup where
  zip_removed : Bool
  folder_removed : Bool
  tracks : List TrackCleanup
deriving Repr, DecidableEq

/-- The sequential `for track in metadata['tracks']` loop of the non-zip
branch: tracks upload one by one; the first raise aborts the loop. -/
def runTracks : List TrackEnv → Except String Unit × List TrackCleanup
  | [] => (Except.ok (), [])
  | t :: rest =>
      match track_upload t with
      | (Except.error e, c) => (Except.error e, [c])
      | (Except.ok _, c) =>
          match runTracks rest with
          | (r, cs) => (r, c :: cs)

/-- Function `album_upload`: `'Telegram'` with `Config.ALBUM_ZIP` zips, sends the
document, removes the zip; without `ALBUM_ZIP` it uploads the tracks
individually; `'Rclone'` resolves links and sends or edits a message.  The
final `shutil.rmtree(metadata['folderpath'])` runs only when the taken
branch did not raise. -/
def album_upload (env : AlbumEnv) : Except String Unit × AlbumCleanup :=
  if env.upload_mode = "Telegram" then
    if env.album_zip then
      match env.zip_behavior with
      | CallResult.raises e => (Except.error e, ⟨false, false, []⟩)
      | CallResult.returns _ =>
          match env.send_behavior with
          | CallResult.raises e => (Except.error e, ⟨false, false, []⟩)
          | CallResult.returns _ => (Except.ok (), ⟨true, true, []⟩)
    else
      match runTracks env.track_envs with
      | (Except.error e, cs) => (Except.error e, ⟨false, false, cs⟩)
      | (Except.ok _, cs) => (Except.ok (), ⟨false, true, cs⟩)
  else if env.upload_mode = "Rclone" then
    match env.rclone_behavior with
    | CallResult.raises e => (Except.error e, ⟨false, false, []⟩)
    | CallResult.returns _ =>
        match env.send_behavior with
        | CallResult.raises e => (Except.error e, ⟨false, false, []⟩)
        | CallResult.returns _ => (Except.ok (), ⟨false, true, []⟩)
  else (Except.ok (), ⟨false, true, []⟩)

/-- C8 counterexample: a `send_message` call that raises under
`'Telegram'` mode makes `track_upload` return by exception with the track
file (and thumbnail) still on disk — cleanup did not run. -/
theorem track_upload_no_cleanup_cex :
    track_upload ⟨"Telegram", CallResult.raises "boom",
        CallResult.returns (none, none), true⟩ =
      (Except.error "boom", ⟨false, false⟩) := rfl

/-- C8 amended: cleanup is conditional, not unconditional — the local
file of a track and the source folder of an album are removed exactly
when the delivery branch completed without raising; any exception thrown
in a branch skips the trailing cleanup statements, and the thumbnail is
removed exactly when the branch succeeded and a thumbnail exists. -/
theorem upload_cleanup_policy (tenv : TrackEnv) (aenv : AlbumEnv) :
    ((track_upload tenv).2.file_removed = true ↔
        (track_upload tenv).1 = Except.ok ()) ∧
    ((track_upload tenv).2.thumb_removed = true ↔
        ((track_upload tenv).1 = Except.ok () ∧
          tenv.has_thumbnail = true)) ∧
    ((album_upload aenv).2.folder_removed = true ↔
        (album_upload aenv).1 = Except.ok ()) := by
  refine ⟨?_, ?_, ?_⟩
  · unfold track_upload
    cases hb : track_branch tenv with
    | error e => simp
    | ok v => simp
  · unfold track_upload
    cases hb : track_branch tenv with
    | error e => simp
    | ok v => simp
  · unfold album_upload
    by_cases h1 : aenv.upload_mode = "Telegram"
    · rw [if_pos h1]
      by_cases h2 : aenv.album_zip
      · rw [if_pos h2]
        cases aenv.zip_behavior with
        | raises e => simp
        | returns v =>
            cases aenv.send_behavior with
            | raises e => simp
            | returns v2 => simp
      · rw [if_neg h2]
        rcases hr : runTracks aenv.track_envs with ⟨r, cs⟩
        cases r with
        | error e => simp
        | ok v => simp
    · rw [if_neg h1]
      by_cases h2 : aenv.upload_mode = "Rclone"
      · rw [if_pos h2]
        cases aenv.rclone_behavior with
        | raises e => simp
        | returns v =>
            cases aenv.send_behavior with
            | raises e => simp
            | returns v2 => simp
      · rw [if_neg h2]
        simp

end Uploader

namespace Links

/-!
Model of `create_link` (utils.py) and `rclone_upload` (uploader.py).
Paths and configuration strings are modelled as their UTF-8 byte lists so
that URL-encoding is byte-accurate.  Both functions receive the relative
path they derive at their top (`Path(path).relative_to(basepath)` in
`create_link`; `str(path).replace(base_path, "").lstrip('/')` in
`rclone_upload`) as an input.
-/

/-- A byte is left unencoded by Python's `urllib.parse.quote` with the
default `safe='/'`: ASCII letters, digits, `_.-~` and `/`. -/
def quoteSafe (b : Nat) : Bool :=
  (65 ≤ b && b ≤ 90) || (97 ≤ b && b ≤ 122) || (48 ≤ b && b ≤ 57) ||
    b == 45 || b == 46 || b == 95 || b == 126 || b == 47

/-- Uppercase hexadecimal digit of a value below 16, as a byte. -/
def hexDigit (n : Nat) : Nat :=
  if n < 10 then 48 + n else 55 + n

/-- Python `urllib.parse.quote(path)`: percent-encode every byte outside the
safe set as `%XX` with uppercase hex. -/
def quote (bytes : List Nat) : List Nat :=
  bytes.flatMap (fun b =>
    if quoteSafe b then [b]
    else [37, hexDigit (b / 16), hexDigit (b % 16)])

/-- Configuration and CLI behaviour shared by both link producers:
`bot_set.link_options`, the `rclone link` subprocess exit code and
stripped stdout, `Config.INDEX_LINK` and `Config.RCLONE_DEST` (the empty
list models an unset, falsy value). -/
structure LinkEnv where
  link_options : String
  cli_exit : Nat
  cli_stdout : List Nat
  index_link : List Nat
  rclone_dest : List Nat
deriving Repr, DecidableEq

/-- One link-resolution outcome: the direct (rclone) link, the index
link, and whether the non-zero CLI exit was logged (`LOGGER.debug`). -/
structure LinkResult where
  rclone_link : Option (List Nat)
  index_link : Option (List Nat)
  logged : Bool
deriving Repr, DecidableEq

/-- Function `create_link(path, basepath)` applied to the relative path: a direct
link only when options enable rclone links and the CLI exits 0 (non-zero
is logged, not raised); an index link `INDEX_LINK + '/' + quote(path)`
when options enable index links and an index root is configured. -/
def create_link (env : LinkEnv) (path : List Nat) : LinkResult :=
  { rclone_link :=
      if (env.link_options = "RCLONE" ∨ env.link_options = "Both") ∧
          env.cli_exit = 0
      then some env.cli_stdout else none,
    index_link :=
      if (env.link_options = "Index" ∨ env.link_options = "Both") ∧
          env.index_link ≠ []
      then some (env.index_link ++ [47] ++ quote path) else none,
    logged :=
      if (env.link_options = "RCLONE" ∨ env.link_options = "Both") ∧
          env.cli_exit ≠ 0
      then true else false }

/-- Function `rclone_upload(user, path, base_path)` applied to the relative path:
returns no links when `Config.RCLONE_DEST` is unset; otherwise the direct
link behaves as in `create_link`, and the index link is
`f"INDEX_LINK/relative_path"` — the raw relative path, with no
URL-encoding. -/
def rclone_upload (env : LinkEnv) (relative_path : List Nat) : LinkResult :=
  if env.rclone_dest = [] then ⟨none, none, false⟩
  else
    { rclone_link :=
        if (env.link_options = "RCLONE" ∨ env.link_options = "Both") ∧
            env.cli_exit = 0
        then some env.cli_stdout else none,
      index_link :=
        if (env.link_options = "Index" ∨ env.link_options = "Both") ∧
            env.index_link ≠ []
        then some (env.index_link ++ [47] ++ relative_path) else none,
      logged :=
        if (env.link_options = "RCLONE" ∨ env.link_options = "Both") ∧
            env.cli_exit ≠ 0
        then true else false }

/-- C9 amended: with link options `Both`, a configured index root and a
failing CLI (non-zero exit), both producers return no direct link and do
log the failure instead of raising, and both still populate the index
link — but only `create_link` URL-encodes the relative path, while
`rclone_upload` (the one used for track/album delivery) appends the raw
relative path. -/
theorem link_resolver_policy (env : LinkEnv) (path : List Nat)
    (hopt : env.link_options = "Both") (hexit : env.cli_exit ≠ 0)
    (hidx : env.index_link ≠ []) (hdest : env.rclone_dest ≠ []) :
    create_link env path =
      ⟨none, some (env.index_link ++ [47] ++ quote path), true⟩ ∧
    rclone_upload env path =
      ⟨none, some (env.index_link ++ [47] ++ path), true⟩ := by
  have c1 : ¬((env.link_options = "RCLONE" ∨ env.link_options = "Both") ∧
      env.cli_exit = 0) := fun h => hexit h.2
  have c2 : (env.link_options = "Index" ∨ env.link_options = "Both") ∧
      env.index_link ≠ [] := ⟨Or.inr hopt, hidx⟩
  have c3 : (env.link_options = "RCLONE" ∨ env.link_options = "Both") ∧
      env.cli_exit ≠ 0 := ⟨Or.inr hopt, hexit⟩
  constructor
  · simp only [create_link, if_pos c2, if_pos c3, if_neg c1]
  · simp only [rclone_upload, if_pos c2, if_pos c3, if_neg c1, if_neg hdest]

/-- Witness: index root `"h"`, relative path `"a b"`, CLI exit 1 — the
index link of `create_link` carries `a%20b` while `rclone_upload` carries
the raw `a b`. -/
theorem link_resolver_policy_witness :
    create_link ⟨"Both", 1, [], [104], [114]⟩ [97, 32, 98] =
      ⟨none, some ([104] ++ [47] ++ quote [97, 32, 98]), true⟩ ∧
    rclone_upload ⟨"Both", 1, [], [104], [114]⟩ [97, 32, 98] =
      ⟨none, some ([104] ++ [47] ++ [97, 32, 98]), true⟩ :=
  link_resolver_policy ⟨"Both", 1, [], [104], [114]⟩ [97, 32, 98]
    rfl (by decide) (by decide) (by decide)

/-- C9 counterexample: for the relative path `"a b"` (bytes 97 32 98)
under options `Both` with a failing CLI, `rclone_upload` populates the
index link with the raw path `h/a b`, which differs from the URL-encoded
`h/a%20b` the claim requires. -/
theorem rclone_upload_no_urlencode_cex :
    (rclone_upload ⟨"Both", 1, [], [104], [114]⟩ [97, 32, 98]).index_link =
        some [104, 47, 97, 32, 98] ∧
      (rclone_upload ⟨"Both", 1, [], [104], [114]⟩
          [97, 32, 98]).index_link ≠
        some ([104] ++ [47] ++ quote [97, 32, 98]) := by
  decide

end Links

namespace Message

/-!
Model of `send_message` (message.py).  The transport call of the selected
branch either returns a message handle, raises `FloodWait(seconds)`, or
raises some other exception.  On `FloodWait` the function sleeps and
recursively re-issues the identical call (unbounded recursion in the
source, modelled with a fuel counter: `none` stands for a run longer than
the fuel).  On any other exception it only logs; the function then falls
through to `return msg` with the local `msg` never assigned, which raises
`UnboundLocalError`.  The same `return msg` is reached directly — with
nothing logged — when `itype` is none of the five recognised kinds, since
no branch assigns `msg` and no exception occurs.
-/

/-- Behaviour of the underlying pyrogram call, per call number. -/
inductive TransportBehavior where
  | returns (handle : Nat)
  | floodWait (seconds : Nat)
  | raisesOther (e : String)
deriving Repr, DecidableEq

/-- How a `send_message` invocation ends: returning a handle, or raising
`UnboundLocalError` from `return msg`. -/
inductive PyOutcome where
  | handle (h : Nat)
  | unboundLocal
deriving Repr, DecidableEq

/-- Observable result: the ending (or `none` when the flood-retry
recursion exceeds the fuel), the `LOGGER.error` lines, and the
`asyncio.sleep` durations performed. -/
structure SendResult where
  outcome : Option PyOutcome
  logs : List String
  sleeps : List Nat
deriving Repr, DecidableEq

/-- The five `itype` values with a sending branch. -/
def recognized (itype : String) : Bool :=
  itype == "text" || itype == "doc" || itype == "audio" ||
    itype == "video" || itype == "pic"

/-- Function `send_message`, by call number and fuel. -/
def send_message (transport : Nat → TransportBehavior) (itype : String) :
    Nat → Nat → SendResult
  | _, 0 => ⟨none, [], []⟩
  | call, fuel + 1 =>
      if recognized itype then
        match transport call with
        | TransportBehavior.returns h => ⟨some (PyOutcome.handle h), [], []⟩
        | TransportBehavior.floodWait secs =>
            match send_message transport itype (call + 1) fuel with
            | r => ⟨r.outcome, r.logs, secs :: r.sleeps⟩
        | TransportBehavior.raisesOther e =>
            ⟨some PyOutcome.unboundLocal,
              ["Error sending message: " ++ e], []⟩
      else ⟨some PyOutcome.unboundLocal, [], []⟩

/-- C10: when the transport call raises a non-FloodWait exception — or
when `itype` is not one of the five recognised kinds, in which case no
branch runs at all — `send_message` does not return a message handle: it
raises `UnboundLocalError` from `return msg`, after logging the exception
in the former case and logging nothing in the latter. -/
theorem send_message_unbound_local (transport : Nat → TransportBehavior)
    (itype : String) (fuel : Nat) (e : String)
    (h : (recognized itype = true ∧
          transport 0 = TransportBehavior.raisesOther e) ∨
        recognized itype = false) :
    (send_message transport itype 0 (fuel + 1)).outcome =
        some PyOutcome.unboundLocal ∧
      ((recognized itype = true ∧
          transport 0 = TransportBehavior.raisesOther e) →
        (send_message transport itype 0 (fuel + 1)).logs =
          ["Error sending message: " ++ e]) := by
  rcases h with ⟨hrec, htr⟩ | hrec
  · constructor
    · simp [send_message, hrec, htr]
    · intro _
      simp [send_message, hrec, htr]
  · constructor
    · simp [send_message, hrec]
    · intro hcontra
      rw [hrec] at hcontra
      cases hcontra.1

/-- Witness: an `'audio'` send whose transport raises `"boom"` on the
first call ends in `UnboundLocalError` with the error logged. -/
theorem send_message_unbound_local_witness :
    (send_message (fun _ => TransportBehavior.raisesOther "boom")
          "audio" 0 1).outcome = some PyOutcome.unboundLocal ∧
      ((recognized "audio" = true ∧
          (fun _ => TransportBehavior.raisesOther "boom") 0 =
            TransportBehavior.raisesOther "boom") →
        (send_message (fun _ => TransportBehavior.raisesOther "boom")
            "audio" 0 1).logs = ["Error sending message: " ++ "boom"]) :=
  send_message_unbound_local
    (fun _ => TransportBehavior.raisesOther "boom") "audio" 0 "boom"
    (Or.inl ⟨by decide, rfl⟩)

end Message
